import Mathlib

set_option maxHeartbeats 1000000

/- Shallow embedding of a5hash.h (the a5hash 64-bit hash function and the
   a5rand 64-bit PRNG).  64-bit machine words are modelled as `Nat` values
   reduced modulo `2 ^ 64` at every wrapping operation; a message buffer is
   modelled as a `List Nat` of its byte values, and every memory read is
   Option-valued so that an out-of-bounds access yields `none`. -/

def A5HASH_VAL01 : Nat := 0x5555555555555555

def A5HASH_VAL10 : Nat := 0xAAAAAAAAAAAAAAAA

/-- Native-path wide multiply (src/a5hash.h lines 242-248): the full
128-bit product of two 64-bit words, split into low and high halves. -/
def a5hash_umul128 (u v : Nat) : Nat × Nat :=
  (u * v % 2 ^ 64, u * v / 2 ^ 64 % 2 ^ 64)

/-- Portable-fallback wide multiply (src/a5hash.h lines 255-273): the
grade-school long multiplication built from four 32x32 products with carry
accumulation, every intermediate truncated exactly as the C casts do. -/
def a5hash_umul128_port (u v : Nat) : Nat × Nat :=
  let rl := u * v % 2 ^ 64
  let u0 := u % 2 ^ 32
  let v0 := v % 2 ^ 32
  let w0 := u0 * v0 % 2 ^ 64
  let u1 := u / 2 ^ 32 % 2 ^ 32
  let v1 := v / 2 ^ 32 % 2 ^ 32
  let t := (u1 * v0 + w0 / 2 ^ 32 % 2 ^ 32) % 2 ^ 64
  let w1 := (u0 * v1 + t % 2 ^ 32) % 2 ^ 64
  let rh := (u1 * v1 + w1 / 2 ^ 32 % 2 ^ 32 + t / 2 ^ 32 % 2 ^ 32) % 2 ^ 64
  (rl, rh)

/-- Little-endian 4-byte load (src/a5hash.h lines 202-208); `none` when any
of the four bytes lies outside the message. -/
def a5hash_lu32 (m : List Nat) (i : Nat) : Option Nat := do
  let b0 ← m[i]?
  let b1 ← m[i + 1]?
  let b2 ← m[i + 2]?
  let b3 ← m[i + 3]?
  pure (b0 + b1 * 2 ^ 8 + b2 * 2 ^ 16 + b3 * 2 ^ 24)

/-- Little-endian 8-byte load (src/a5hash.h lines 210-216); `none` when any
of the eight bytes lies outside the message. -/
def a5hash_lu64 (m : List Nat) (i : Nat) : Option Nat := do
  let b0 ← m[i]?
  let b1 ← m[i + 1]?
  let b2 ← m[i + 2]?
  let b3 ← m[i + 3]?
  let b4 ← m[i + 4]?
  let b5 ← m[i + 5]?
  let b6 ← m[i + 6]?
  let b7 ← m[i + 7]?
  pure (b0 + b1 * 2 ^ 8 + b2 * 2 ^ 16 + b3 * 2 ^ 24 + b4 * 2 ^ 32 +
    b5 * 2 ^ 40 + b6 * 2 ^ 48 + b7 * 2 ^ 56)

/-- Middle-window selector of the small-input path (src/a5hash.h line 315,
`const size_t mo = MsgLen >> 3`). -/
def a5mo (MsgLen : Nat) : Nat := MsgLen >>> 3

/-- Seed initialization and seed-folding multiply (src/a5hash.h lines
301-306): returns the pair (Seed1, Seed2) produced by
`a5hash_umul128( Seed2 ^ ( UseSeed & val10 ), Seed1 ^ ( UseSeed & val01 ))`
where Seed1 and Seed2 start as the pi-mantissa constants xored with the
message length. -/
def a5init (MsgLen seed : Nat) : Nat × Nat :=
  let Seed1 := 0x243F6A8885A308D3 ^^^ MsgLen
  let Seed2 := 0x452821E638D01377 ^^^ MsgLen
  a5hash_umul128 (Seed2 ^^^ (seed &&& A5HASH_VAL10))
    (Seed1 ^^^ (seed &&& A5HASH_VAL01))

/-- Common finalization (src/a5hash.h lines 364-368): two wide multiplies
followed by the xor of the two halves. -/
def a5final (Seed1 Seed2 val01 a b : Nat) : Nat :=
  let (s1, s2) := a5hash_umul128 (Seed1 ^^^ a) (Seed2 ^^^ b)
  let (t1, t2) := a5hash_umul128 (s1 ^^^ val01) s2
  t1 ^^^ t2

/-- The streaming do-while loop of a5hash (src/a5hash.h lines 347-358).
`off` is the current read offset of the advancing message pointer and
`MsgLen` the remaining length; the body always runs once, and repeats while
strictly more than 16 bytes remain.  Returns the final offset, remaining
length, and the two seeds. -/
def a5hash_loop (m : List Nat) (off MsgLen Seed1 Seed2 val01 val10 : Nat) :
    Option (Nat × Nat × Nat × Nat) := do
  let x ← a5hash_lu64 m off
  let y ← a5hash_lu64 m (off + 8)
  let (s1, s2) := a5hash_umul128 (Seed1 ^^^ x) (Seed2 ^^^ y)
  let MsgLen2 := MsgLen - 16
  let off2 := off + 16
  let s1a := (s1 + val01) % 2 ^ 64
  let s2a := (s2 + val10) % 2 ^ 64
  if h : 16 < MsgLen2 then
    a5hash_loop m off2 MsgLen2 s1a s2a val01 val10
  else
    pure (off2, MsgLen2, s1a, s2a)
termination_by MsgLen
decreasing_by omega

/-- The a5hash function (src/a5hash.h lines 291-369) over a byte list; the
result is `none` exactly when some memory read would fall outside the
message. -/
def a5hash (m : List Nat) (seed : Nat) : Option Nat := do
  let MsgLen := m.length
  let val01 := A5HASH_VAL01
  let val10 := A5HASH_VAL10
  let (Seed1, Seed2) := a5init MsgLen seed
  let val10 := val10 ^^^ Seed2
  let (Seed1, Seed2, val01, a, b) ←
    if MsgLen < 17 then
      if 3 < MsgLen then do
        let mo := a5mo MsgLen
        let a0 ← a5hash_lu32 m 0
        let a1 ← a5hash_lu32 m (MsgLen - 4)
        let b0 ← a5hash_lu32 m (mo * 4)
        let b1 ← a5hash_lu32 m (MsgLen - 4 - mo * 4)
        pure (Seed1, Seed2, val01, a0 <<< 32 ||| a1, b0 <<< 32 ||| b1)
      else do
        let a ←
          if MsgLen ≠ 0 then do
            let c0 ← m[0]?
            if MsgLen ≠ 1 then do
              let c1 ← m[1]?
              if MsgLen ≠ 2 then do
                let c2 ← m[2]?
                pure (c0 ||| c1 <<< 8 ||| c2 <<< 16)
              else
                pure (c0 ||| c1 <<< 8)
            else
              pure c0
          else
            pure 0
        pure (Seed1, Seed2, val01, a, 0)
    else do
      let val01 := val01 ^^^ Seed1
      let (off2, rem2, s1, s2) ← a5hash_loop m 0 MsgLen Seed1 Seed2 val01 val10
      let a ← a5hash_lu64 m (off2 + rem2 - 16)
      let b ← a5hash_lu64 m (off2 + rem2 - 8)
      pure (s1, s2, val01, a, b)
  pure (a5final Seed1 Seed2 val01 a b)

/-- One a5rand step (src/a5hash.h lines 392-404): the wide multiply of the
two state words offset by the alternating-bit constants becomes the new
state, and the xor of the two new words is the output. -/
def a5rand (Seed1 Seed2 : Nat) : (Nat × Nat) × Nat :=
  let (s1, s2) := a5hash_umul128 ((Seed1 + A5HASH_VAL01) % 2 ^ 64)
    ((Seed2 + A5HASH_VAL10) % 2 ^ 64)
  ((s1, s2), s1 ^^^ s2)

/-- The state transition performed by one a5rand call, as a map on the
pair of state words. -/
def a5rand_next (s : Nat × Nat) : Nat × Nat := (a5rand s.1 s.2).1

/-- Claim-side streaming loop, following the specification text: while
strictly more than 16 bytes remain, mix the seeds with the next two 8-byte
words, advance by 16 bytes, and accumulate val01 and val10 into the seeds.
Returns the final pair of seeds. -/
def a5hash_stream_loop_spec (m : List Nat)
    (off MsgLen Seed1 Seed2 val01 val10 : Nat) : Option (Nat × Nat) :=
  if h : 16 < MsgLen then do
    let x ← a5hash_lu64 m off
    let y ← a5hash_lu64 m (off + 8)
    let (s1, s2) := a5hash_umul128 (Seed1 ^^^ x) (Seed2 ^^^ y)
    a5hash_stream_loop_spec m (off + 16) (MsgLen - 16)
      ((s1 + val01) % 2 ^ 64) ((s2 + val10) % 2 ^ 64) val01 val10
  else
    pure (Seed1, Seed2)
termination_by MsgLen
decreasing_by omega

/-- Claim-side streaming path, following the specification text for
messages longer than 16 bytes: after initialization set
`val01 ^= Seed1`, run the while-style loop, then load the two final 8-byte
windows at absolute offsets `length - 16` and `length - 8` of the original
buffer and finalize. -/
def a5hash_stream_spec (m : List Nat) (seed : Nat) : Option Nat := do
  let MsgLen := m.length
  let (Seed1, Seed2) := a5init MsgLen seed
  let val10 := A5HASH_VAL10 ^^^ Seed2
  let val01 := A5HASH_VAL01 ^^^ Seed1
  let (s1, s2) ← a5hash_stream_loop_spec m 0 MsgLen Seed1 Seed2 val01 val10
  let a ← a5hash_lu64 m (MsgLen - 16)
  let b ← a5hash_lu64 m (MsgLen - 8)
  pure (a5final s1 s2 val01 a b)

/-- Claim-side byte-by-byte value used for lengths 0..3, following the
specification text: byte 0 of the message lands in bits 0-7, byte 1 in
bits 8-15 if present, byte 2 in bits 16-23 if present, and the value is 0
for the empty message. -/
def a5hash_short_a (m : List Nat) : Nat :=
  match m with
  | [] => 0
  | [b0] => b0
  | [b0, b1] => b0 ||| b1 <<< 8
  | b0 :: b1 :: b2 :: _ => b0 ||| b1 <<< 8 ||| b2 <<< 16

/-- Final remaining length when the streaming loop of a5hash exits, as a
function of the initial length (only meaningful for lengths above 16). -/
def a5tail (MsgLen : Nat) : Nat := (MsgLen - 17) % 16 + 1

/-- The a5rand state sequence started at s first revisits an earlier state
after exactly n steps: the first n states are pairwise distinct, and the
state reached after n steps equals one of them. -/
def firstRepeatExactly (s : Nat × Nat) (n : Nat) : Prop :=
  (∀ i j, i < n → j < n → i ≠ j → a5rand_next^[i] s ≠ a5rand_next^[j] s) ∧
  ∃ j < n, a5rand_next^[n] s = a5rand_next^[j] s

/-- C1: on every implementation path the wide multiply returns the exact
128-bit product of its 64-bit arguments — the high half times 2^64 plus the
low half equals u * v — and the portable carry-accumulation fallback agrees
bit-for-bit with the native 128-bit path on every input. -/
theorem a5hash_umul128_exact (u v : Nat) (hu : u < 2 ^ 64) (hv : v < 2 ^ 64) :
    (a5hash_umul128 u v).2 * 2 ^ 64 + (a5hash_umul128 u v).1 = u * v ∧
    a5hash_umul128_port u v = a5hash_umul128 u v := by
  have hu1 : u / 2 ^ 32 < 2 ^ 32 := by omega
  have hv1 : v / 2 ^ 32 < 2 ^ 32 := by omega
  have hu0 : u % 2 ^ 32 < 2 ^ 32 := Nat.mod_lt _ (by norm_num)
  have hv0 : v % 2 ^ 32 < 2 ^ 32 := Nat.mod_lt _ (by norm_num)
  have hq : u * v = (u / 2 ^ 32) * (v / 2 ^ 32) * 2 ^ 64 +
      ((u / 2 ^ 32) * (v % 2 ^ 32) + (u % 2 ^ 32) * (v / 2 ^ 32)) * 2 ^ 32 +
      (u % 2 ^ 32) * (v % 2 ^ 32) := by
    conv_lhs => rw [← Nat.div_add_mod u (2 ^ 32), ← Nat.div_add_mod v (2 ^ 32)]
    ring
  have b00 : (u % 2 ^ 32) * (v % 2 ^ 32) ≤ (2 ^ 32 - 1) * (2 ^ 32 - 1) :=
    Nat.mul_le_mul (by omega) (by omega)
  have b01 : (u % 2 ^ 32) * (v / 2 ^ 32) ≤ (2 ^ 32 - 1) * (2 ^ 32 - 1) :=
    Nat.mul_le_mul (by omega) (by omega)
  have b10 : (u / 2 ^ 32) * (v % 2 ^ 32) ≤ (2 ^ 32 - 1) * (2 ^ 32 - 1) :=
    Nat.mul_le_mul (by omega) (by omega)
  have b11 : (u / 2 ^ 32) * (v / 2 ^ 32) ≤ (2 ^ 32 - 1) * (2 ^ 32 - 1) :=
    Nat.mul_le_mul (by omega) (by omega)
  constructor
  · have hp : u * v < 2 ^ 64 * 2 ^ 64 := Nat.mul_lt_mul'' hu hv
    simp only [a5hash_umul128]
    generalize u * v = p at hp ⊢
    omega
  · simp only [a5hash_umul128, a5hash_umul128_port]
    refine Prod.ext rfl ?_
    simp only
    rw [Nat.mod_eq_of_lt hu1, Nat.mod_eq_of_lt hv1]
    generalize hP00 : (u % 2 ^ 32) * (v % 2 ^ 32) = p00 at *
    generalize hP01 : (u % 2 ^ 32) * (v / 2 ^ 32) = p01 at *
    generalize hP10 : (u / 2 ^ 32) * (v % 2 ^ 32) = p10 at *
    generalize hP11 : (u / 2 ^ 32) * (v / 2 ^ 32) = p11 at *
    rw [hq]
    omega

theorem a5hash_umul128_exact_witness :
    0xFEDCBA9876543210 < 2 ^ 64 ∧ 0x123456789ABCDEF1 < 2 ^ 64 ∧
    ((a5hash_umul128 0xFEDCBA9876543210 0x123456789ABCDEF1).2 * 2 ^ 64 +
        (a5hash_umul128 0xFEDCBA9876543210 0x123456789ABCDEF1).1 =
      0xFEDCBA9876543210 * 0x123456789ABCDEF1 ∧
    a5hash_umul128_port 0xFEDCBA9876543210 0x123456789ABCDEF1 =
      a5hash_umul128 0xFEDCBA9876543210 0x123456789ABCDEF1) :=
  ⟨by decide, by decide,
    a5hash_umul128_exact 0xFEDCBA9876543210 0x123456789ABCDEF1
      (by decide) (by decide)⟩

/-- C5 counterexample: length 16 lies in the small-input range [4,16], yet
the middle-window selector mo = 16 >> 3 there equals 2, not 0 or 1. -/
theorem a5mo_sixteen_cex :
    4 ≤ 16 ∧ 16 ≤ 16 ∧ ¬ (a5mo 16 = 0 ∨ a5mo 16 = 1) := by decide

/-- C5 amended: for message lengths in [4,16] the selector mo = length >> 3
takes the value 0 (lengths 4..7) or 1 (lengths 8..15), except that at
length 16 it takes the value 2. -/
theorem a5mo_values (MsgLen : Nat) (h4 : 4 ≤ MsgLen) (h16 : MsgLen ≤ 16) :
    a5mo MsgLen = 0 ∨ a5mo MsgLen = 1 ∨ (MsgLen = 16 ∧ a5mo MsgLen = 2) := by
  have hmo : a5mo MsgLen = MsgLen / 8 := by
    simp [a5mo, Nat.shiftRight_eq_div_pow]
  omega

theorem a5mo_values_witness :
    4 ≤ 8 ∧ 8 ≤ 16 ∧ (a5mo 8 = 0 ∨ a5mo 8 = 1 ∨ (8 = 16 ∧ a5mo 8 = 2)) :=
  ⟨by decide, by decide, a5mo_values 8 (by decide) (by decide)⟩

/-- C6: for every message length in [4,16], every byte index below the
length lies in at least one of the four 4-byte windows read by the
small-input path: [0,4), [len-4,len), [4*mo, 4*mo+4) and
[len-4-4*mo, len-4*mo), with mo the selector computed by the code. -/
theorem a5hash_small_coverage (MsgLen i : Nat) (h4 : 4 ≤ MsgLen)
    (h16 : MsgLen ≤ 16) (hi : i < MsgLen) :
    i < 4 ∨ (MsgLen - 4 ≤ i ∧ i < MsgLen) ∨
    (4 * a5mo MsgLen ≤ i ∧ i < 4 * a5mo MsgLen + 4) ∨
    (MsgLen - 4 - 4 * a5mo MsgLen ≤ i ∧ i < MsgLen - 4 * a5mo MsgLen) := by
  have hmo : a5mo MsgLen = MsgLen / 8 := by
    simp [a5mo, Nat.shiftRight_eq_div_pow]
  omega

theorem a5hash_small_coverage_witness :
    4 ≤ 13 ∧ 13 ≤ 16 ∧ 6 < 13 ∧
    (6 < 4 ∨ (13 - 4 ≤ 6 ∧ 6 < 13) ∨
      (4 * a5mo 13 ≤ 6 ∧ 6 < 4 * a5mo 13 + 4) ∨
      (13 - 4 - 4 * a5mo 13 ≤ 6 ∧ 6 < 13 - 4 * a5mo 13)) :=
  ⟨by decide, by decide, by decide,
    a5hash_small_coverage 13 6 (by decide) (by decide) (by decide)⟩

/-- C7: one a5rand call maps the state (s1, s2) exactly to the low and high
64-bit halves of the 128-bit product (s1 + 0x5555555555555555) *
(s2 + 0xAAAAAAAAAAAAAAAA), the additions wrapping modulo 2^64, performing
exactly one such step, and returns the xor of the two new state words. -/
theorem a5rand_step_ok (s1 s2 : Nat) :
    a5rand s1 s2 =
      (((((s1 + 0x5555555555555555) % 2 ^ 64) *
            ((s2 + 0xAAAAAAAAAAAAAAAA) % 2 ^ 64)) % 2 ^ 64,
        (((s1 + 0x5555555555555555) % 2 ^ 64) *
            ((s2 + 0xAAAAAAAAAAAAAAAA) % 2 ^ 64)) / 2 ^ 64),
       ((((s1 + 0x5555555555555555) % 2 ^ 64) *
            ((s2 + 0xAAAAAAAAAAAAAAAA) % 2 ^ 64)) % 2 ^ 64) ^^^
         ((((s1 + 0x5555555555555555) % 2 ^ 64) *
            ((s2 + 0xAAAAAAAAAAAAAAAA) % 2 ^ 64)) / 2 ^ 64)) := by
  have hx : (s1 + 0x5555555555555555) % 2 ^ 64 < 2 ^ 64 :=
    Nat.mod_lt _ (by norm_num)
  have hy : (s2 + 0xAAAAAAAAAAAAAAAA) % 2 ^ 64 < 2 ^ 64 :=
    Nat.mod_lt _ (by norm_num)
  have hp : ((s1 + 0x5555555555555555) % 2 ^ 64) *
      ((s2 + 0xAAAAAAAAAAAAAAAA) % 2 ^ 64) < 2 ^ 64 * 2 ^ 64 :=
    Nat.mul_lt_mul'' hx hy
  have hd : ((s1 + 0x5555555555555555) % 2 ^ 64) *
      ((s2 + 0xAAAAAAAAAAAAAAAA) % 2 ^ 64) / 2 ^ 64 < 2 ^ 64 :=
    Nat.div_lt_of_lt_mul hp
  simp only [a5rand, a5hash_umul128, A5HASH_VAL01, A5HASH_VAL10]
  rw [Nat.mod_eq_of_lt hd]

/-- C10: swapping the roles of the two multiplicands — replacing (s1, s2)
by (s2 + 0x5555555555555555, s1 - 0x5555555555555555) in wrapping 64-bit
arithmetic — yields the same successor state and output in one a5rand
step, and the two state pairs are distinct whenever s1 differs from
s2 + 0x5555555555555555, so the state-transition map is not injective. -/
theorem a5rand_swapped_state (s1 s2 : Nat)
    (_h1 : s1 < 2 ^ 64) (_h2 : s2 < 2 ^ 64) :
    a5rand ((s2 + 0x5555555555555555) % 2 ^ 64)
        ((s1 + (2 ^ 64 - 0x5555555555555555)) % 2 ^ 64) = a5rand s1 s2 ∧
    (s1 ≠ (s2 + 0x5555555555555555) % 2 ^ 64 →
      ((s2 + 0x5555555555555555) % 2 ^ 64,
        (s1 + (2 ^ 64 - 0x5555555555555555)) % 2 ^ 64) ≠ (s1, s2)) := by
  constructor
  · have e1 : ((s2 + 0x5555555555555555) % 2 ^ 64 + A5HASH_VAL01) % 2 ^ 64 =
        (s2 + A5HASH_VAL10) % 2 ^ 64 := by
      simp only [A5HASH_VAL01, A5HASH_VAL10]
      omega
    have e2 : ((s1 + (2 ^ 64 - 0x5555555555555555)) % 2 ^ 64 +
          A5HASH_VAL10) % 2 ^ 64 = (s1 + A5HASH_VAL01) % 2 ^ 64 := by
      simp only [A5HASH_VAL01, A5HASH_VAL10]
      omega
    simp only [a5rand, a5hash_umul128, e1, e2]
    rw [Nat.mul_comm]
  · intro hne
    simp only [ne_eq, Prod.mk.injEq, not_and]
    intro hc
    exact absurd hc.symm hne

theorem a5rand_swapped_state_witness :
    (3 : Nat) < 2 ^ 64 ∧ (5 : Nat) < 2 ^ 64 ∧
    (a5rand ((5 + 0x5555555555555555) % 2 ^ 64)
        ((3 + (2 ^ 64 - 0x5555555555555555)) % 2 ^ 64) = a5rand 3 5 ∧
      (3 ≠ (5 + 0x5555555555555555) % 2 ^ 64 →
        ((5 + 0x5555555555555555) % 2 ^ 64,
          (3 + (2 ^ 64 - 0x5555555555555555)) % 2 ^ 64) ≠ (3, 5))) :=
  ⟨by decide, by decide, a5rand_swapped_state 3 5 (by decide) (by decide)⟩

/-- Any state whose first word is 0xAAAAAAAAAAAAAAAB makes the first
multiplicand of the a5rand step wrap to zero, so the whole state collapses
to (0, 0) in one step, whatever the second word is. -/
theorem a5rand_next_collapse (c : Nat) :
    a5rand_next (0xAAAAAAAAAAAAAAAB, c) = (0, 0) := by
  simp only [a5rand_next, a5rand, a5hash_umul128, A5HASH_VAL01, A5HASH_VAL10]
  norm_num

theorem a5rand_iterate_collapse (c k : Nat) :
    a5rand_next^[k + 1] (0xAAAAAAAAAAAAAAAB, c) = a5rand_next^[k] (0, 0) := by
  rw [Function.iterate_succ_apply, a5rand_next_collapse]

/-- If both (0,0) and a collapsing state (0xAAAAAAAAAAAAAAAB, c) had first
repeat exactly 2^64, the orbit of (0, 0) would have to pass through that
collapsing state at step 2^64 - 1. -/
theorem a5rand_collapse_forces (c : Nat)
    (h0 : firstRepeatExactly (0, 0) (2 ^ 64))
    (hc : firstRepeatExactly (0xAAAAAAAAAAAAAAAB, c) (2 ^ 64)) :
    a5rand_next^[2 ^ 64 - 1] (0, 0) = (0xAAAAAAAAAAAAAAAB, c) := by
  obtain ⟨hdist, -⟩ := h0
  obtain ⟨-, j, hj, he⟩ := hc
  have hN : (2 : Nat) ^ 64 = (2 ^ 64 - 1) + 1 := by norm_num
  rw [hN, a5rand_iterate_collapse] at he
  match j, he with
  | 0, he =>
    rw [Function.iterate_zero_apply] at he
    exact he
  | j' + 1, he =>
    rw [a5rand_iterate_collapse] at he
    exact absurd he (hdist (2 ^ 64 - 1) j' (by norm_num) (by omega) (by omega))

/-- C9 counterexample: the initial states (0,0), (0xAAAAAAAAAAAAAAAB,0) and
(0xAAAAAAAAAAAAAAAB,1) cannot all have their first state repeat after
exactly 2^64 steps: the two collapsing states both reach (0,0) after one
step, so full period for all three would force the orbit of (0,0) to end
at two different states simultaneously. -/
theorem a5rand_full_period_cex :
    ¬ (firstRepeatExactly (0, 0) (2 ^ 64) ∧
       firstRepeatExactly (0xAAAAAAAAAAAAAAAB, 0) (2 ^ 64) ∧
       firstRepeatExactly (0xAAAAAAAAAAAAAAAB, 1) (2 ^ 64)) := by
  rintro ⟨h0, ha, hb⟩
  have e0 := a5rand_collapse_forces 0 h0 ha
  have e1 := a5rand_collapse_forces 1 h0 hb
  rw [e0] at e1
  simp at e1

/-- C9 amended: the first-repeat-after-exactly-2^64-steps property cannot
hold for every initial state: some state (one of (0,0),
(0xAAAAAAAAAAAAAAAB,0), (0xAAAAAAAAAAAAAAAB,1)) fails it. -/
theorem a5rand_not_all_full_period :
    ∃ s : Nat × Nat, ¬ firstRepeatExactly s (2 ^ 64) := by
  by_cases h0 : firstRepeatExactly (0, 0) (2 ^ 64)
  · by_cases ha : firstRepeatExactly (0xAAAAAAAAAAAAAAAB, 0) (2 ^ 64)
    · refine ⟨(0xAAAAAAAAAAAAAAAB, 1), fun hb => ?_⟩
      have e0 := a5rand_collapse_forces 0 h0 ha
      have e1 := a5rand_collapse_forces 1 h0 hb
      rw [e0] at e1
      simp at e1
    · exact ⟨_, ha⟩
  · exact ⟨_, h0⟩

/-- C3: for messages of length 0..3 the digest equals the two-multiply
finalization applied to the state left by the initialization
Seed1 = 0x243F6A8885A308D3 xor length, Seed2 = 0x452821E638D01377 xor
length and the seed-folding multiply, with a built byte-by-byte, b = 0 and
val01 = 0x5555555555555555 unchanged. -/
theorem a5hash_tiny_ok (m : List Nat) (seed : Nat) (h : m.length ≤ 3) :
    a5hash m seed =
      some (a5final
        (a5hash_umul128
          ((0x452821E638D01377 ^^^ m.length) ^^^ (seed &&& 0xAAAAAAAAAAAAAAAA))
          ((0x243F6A8885A308D3 ^^^ m.length) ^^^ (seed &&& 0x5555555555555555))).1
        (a5hash_umul128
          ((0x452821E638D01377 ^^^ m.length) ^^^ (seed &&& 0xAAAAAAAAAAAAAAAA))
          ((0x243F6A8885A308D3 ^^^ m.length) ^^^ (seed &&& 0x5555555555555555))).2
        0x5555555555555555 (a5hash_short_a m) 0) := by
  rcases m with _ | ⟨b0, _ | ⟨b1, _ | ⟨b2, _ | ⟨b3, t⟩⟩⟩⟩
  · rfl
  · rfl
  · rfl
  · rfl
  · simp at h

theorem a5hash_tiny_ok_witness :
    ([7, 11] : List Nat).length ≤ 3 ∧
    a5hash [7, 11] 9 =
      some (a5final
        (a5hash_umul128
          ((0x452821E638D01377 ^^^ ([7, 11] : List Nat).length) ^^^
            (9 &&& 0xAAAAAAAAAAAAAAAA))
          ((0x243F6A8885A308D3 ^^^ ([7, 11] : List Nat).length) ^^^
            (9 &&& 0x5555555555555555))).1
        (a5hash_umul128
          ((0x452821E638D01377 ^^^ ([7, 11] : List Nat).length) ^^^
            (9 &&& 0xAAAAAAAAAAAAAAAA))
          ((0x243F6A8885A308D3 ^^^ ([7, 11] : List Nat).length) ^^^
            (9 &&& 0x5555555555555555))).2
        0x5555555555555555 (a5hash_short_a [7, 11]) 0) :=
  ⟨by decide, a5hash_tiny_ok [7, 11] 9 (by decide)⟩

/-- C4: for messages of length 4..16 the digest is computed from
a = load4(bytes 0..3) shifted up 32 or-ed with load4 of the last 4 bytes,
and b = load4 at offset mo*4 shifted up 32 or-ed with load4 at offset
length-4-mo*4, where mo = length / 8. -/
theorem a5hash_mid_ok (m : List Nat) (seed : Nat)
    (h4 : 4 ≤ m.length) (h16 : m.length ≤ 16) :
    a5hash m seed = (do
      let a0 ← a5hash_lu32 m 0
      let a1 ← a5hash_lu32 m (m.length - 4)
      let b0 ← a5hash_lu32 m ((m.length / 8) * 4)
      let b1 ← a5hash_lu32 m (m.length - 4 - (m.length / 8) * 4)
      pure (a5final (a5init m.length seed).1 (a5init m.length seed).2
        A5HASH_VAL01 (a0 <<< 32 ||| a1) (b0 <<< 32 ||| b1))) := by
  have hmo : a5mo m.length = m.length / 8 := by
    simp [a5mo, Nat.shiftRight_eq_div_pow]
  unfold a5hash
  rcases hinit : a5init m.length seed with ⟨S1, S2⟩
  simp only [hinit, hmo]
  rw [if_pos (show m.length < 17 by omega), if_pos (show 3 < m.length by omega)]
  cases hx0 : a5hash_lu32 m 0 with
  | none => simp
  | some a0 =>
    cases hx1 : a5hash_lu32 m (m.length - 4) with
    | none => simp
    | some a1 =>
      cases hx2 : a5hash_lu32 m ((m.length / 8) * 4) with
      | none => simp
      | some b0 =>
        cases hx3 : a5hash_lu32 m (m.length - 4 - (m.length / 8) * 4) with
        | none => simp
        | some b1 => simp

theorem a5hash_mid_ok_witness :
    4 ≤ ([1, 2, 3, 4, 5] : List Nat).length ∧
    ([1, 2, 3, 4, 5] : List Nat).length ≤ 16 ∧
    a5hash [1, 2, 3, 4, 5] 3 = (do
      let a0 ← a5hash_lu32 [1, 2, 3, 4, 5] 0
      let a1 ← a5hash_lu32 [1, 2, 3, 4, 5] (([1, 2, 3, 4, 5] : List Nat).length - 4)
      let b0 ← a5hash_lu32 [1, 2, 3, 4, 5]
        ((([1, 2, 3, 4, 5] : List Nat).length / 8) * 4)
      let b1 ← a5hash_lu32 [1, 2, 3, 4, 5]
        (([1, 2, 3, 4, 5] : List Nat).length - 4 -
          (([1, 2, 3, 4, 5] : List Nat).length / 8) * 4)
      pure (a5final (a5init ([1, 2, 3, 4, 5] : List Nat).length 3).1
        (a5init ([1, 2, 3, 4, 5] : List Nat).length 3).2
        A5HASH_VAL01 (a0 <<< 32 ||| a1) (b0 <<< 32 ||| b1))) :=
  ⟨by decide, by decide, a5hash_mid_ok [1, 2, 3, 4, 5] 3 (by decide) (by decide)⟩

theorem a5hash_lu32_isSome (m : List Nat) (i : Nat) (h : i + 4 ≤ m.length) :
    ∃ v, a5hash_lu32 m i = some v := by
  have h0 : i < m.length := by omega
  have h1 : i + 1 < m.length := by omega
  have h2 : i + 2 < m.length := by omega
  have h3 : i + 3 < m.length := by omega
  refine ⟨m[i] + m[i + 1] * 2 ^ 8 + m[i + 2] * 2 ^ 16 + m[i + 3] * 2 ^ 24, ?_⟩
  unfold a5hash_lu32
  rw [List.getElem?_eq_getElem h0, List.getElem?_eq_getElem h1,
    List.getElem?_eq_getElem h2, List.getElem?_eq_getElem h3]
  rfl

theorem a5hash_lu64_isSome (m : List Nat) (i : Nat) (h : i + 8 ≤ m.length) :
    ∃ v, a5hash_lu64 m i = some v := by
  have h0 : i < m.length := by omega
  have h1 : i + 1 < m.length := by omega
  have h2 : i + 2 < m.length := by omega
  have h3 : i + 3 < m.length := by omega
  have h4 : i + 4 < m.length := by omega
  have h5 : i + 5 < m.length := by omega
  have h6 : i + 6 < m.length := by omega
  have h7 : i + 7 < m.length := by omega
  refine ⟨m[i] + m[i + 1] * 2 ^ 8 + m[i + 2] * 2 ^ 16 + m[i + 3] * 2 ^ 24 +
    m[i + 4] * 2 ^ 32 + m[i + 5] * 2 ^ 40 + m[i + 6] * 2 ^ 48 +
    m[i + 7] * 2 ^ 56, ?_⟩
  unfold a5hash_lu64
  rw [List.getElem?_eq_getElem h0, List.getElem?_eq_getElem h1,
    List.getElem?_eq_getElem h2, List.getElem?_eq_getElem h3,
    List.getElem?_eq_getElem h4, List.getElem?_eq_getElem h5,
    List.getElem?_eq_getElem h6, List.getElem?_eq_getElem h7]
  rfl

theorem a5hash_loop_bounds (m : List Nat) : ∀ MsgLen off Seed1 Seed2 val01 val10,
    16 < MsgLen → off + MsgLen = m.length →
    ∃ off2 rem2 s1 s2,
      a5hash_loop m off MsgLen Seed1 Seed2 val01 val10 =
        some (off2, rem2, s1, s2) ∧
      off2 + rem2 = m.length ∧ 1 ≤ rem2 ∧ rem2 ≤ 16 := by
  intro MsgLen
  induction MsgLen using Nat.strong_induction_on with
  | _ MsgLen ih =>
    intro off Seed1 Seed2 val01 val10 h16 hlen
    obtain ⟨x, hx⟩ := a5hash_lu64_isSome m off (by omega)
    obtain ⟨y, hy⟩ := a5hash_lu64_isSome m (off + 8) (by omega)
    rw [a5hash_loop]
    rw [hx, hy]
    simp only [Option.bind_eq_bind, Option.some_bind, a5hash_umul128]
    by_cases h2 : 16 < MsgLen - 16
    · rw [dif_pos h2]
      exact ih (MsgLen - 16) (by omega) (off + 16) _ _ _ _ h2 (by omega)
    · rw [dif_neg h2]
      exact ⟨off + 16, MsgLen - 16, _, _, rfl, by omega, by omega, by omega⟩

/-- C8: every 1-, 4- and 8-byte load performed by a5hash falls entirely
inside the message: over the Option-valued memory model the hash is `some`
for every message and seed; in particular for the empty message no load is
performed at all and the digest is well defined. -/
theorem a5hash_total (m : List Nat) (seed : Nat) :
    (a5hash m seed).isSome = true := by
  unfold a5hash
  rcases hinit : a5init m.length seed with ⟨S1, S2⟩
  simp only [hinit]
  by_cases h17 : m.length < 17
  · rw [if_pos h17]
    by_cases h3 : 3 < m.length
    · rw [if_pos h3]
      have hmo : a5mo m.length = m.length / 8 := by
        simp [a5mo, Nat.shiftRight_eq_div_pow]
      obtain ⟨a0, e0⟩ := a5hash_lu32_isSome m 0 (by omega)
      obtain ⟨a1, e1⟩ := a5hash_lu32_isSome m (m.length - 4) (by omega)
      obtain ⟨b0, e2⟩ := a5hash_lu32_isSome m (a5mo m.length * 4)
        (by rw [hmo]; omega)
      obtain ⟨b1, e3⟩ := a5hash_lu32_isSome m (m.length - 4 - a5mo m.length * 4)
        (by rw [hmo]; omega)
      simp [e0, e1, e2, e3]
    · rw [if_neg h3]
      by_cases hz : m.length = 0
      · rw [if_neg (by omega : ¬ m.length ≠ 0)]
        simp
      · rw [if_pos (by omega : m.length ≠ 0)]
        rw [List.getElem?_eq_getElem (by omega : 0 < m.length)]
        simp only [Option.bind_eq_bind, Option.some_bind]
        by_cases h1 : m.length = 1
        · rw [if_neg (by omega : ¬ m.length ≠ 1)]
          simp
        · rw [if_pos (by omega : m.length ≠ 1)]
          rw [List.getElem?_eq_getElem (by omega : 1 < m.length)]
          simp only [Option.bind_eq_bind, Option.some_bind]
          by_cases h2 : m.length = 2
          · rw [if_neg (by omega : ¬ m.length ≠ 2)]
            simp
          · rw [if_pos (by omega : m.length ≠ 2)]
            rw [List.getElem?_eq_getElem (by omega : 2 < m.length)]
            simp only [Option.bind_eq_bind, Option.some_bind]
            simp
  · rw [if_neg h17]
    obtain ⟨off2, rem2, s1, s2, hloop, hsum, hr1, hr16⟩ :=
      a5hash_loop_bounds m m.length 0 S1 S2 (A5HASH_VAL01 ^^^ S1)
        (A5HASH_VAL10 ^^^ S2) (by omega) (by omega)
    obtain ⟨a, ea⟩ := a5hash_lu64_isSome m (off2 + rem2 - 16) (by omega)
    obtain ⟨b, eb⟩ := a5hash_lu64_isSome m (off2 + rem2 - 8) (by omega)
    simp [hloop, ea, eb]

/-- The do-while loop of the code agrees with the while-style loop of the
specification whenever more than 16 bytes remain, and its final offset and
remaining length are determined by the initial ones. -/
theorem a5hash_loop_eq_spec (m : List Nat) :
    ∀ MsgLen off Seed1 Seed2 val01 val10, 16 < MsgLen →
    a5hash_loop m off MsgLen Seed1 Seed2 val01 val10 =
      (a5hash_stream_loop_spec m off MsgLen Seed1 Seed2 val01 val10).map
        (fun p => (off + MsgLen - a5tail MsgLen, a5tail MsgLen, p.1, p.2)) := by
  intro MsgLen
  induction MsgLen using Nat.strong_induction_on with
  | _ MsgLen ih =>
    intro off Seed1 Seed2 val01 val10 h16
    rw [a5hash_loop, a5hash_stream_loop_spec, dif_pos h16]
    cases hx : a5hash_lu64 m off with
    | none => simp
    | some x =>
      cases hy : a5hash_lu64 m (off + 8) with
      | none => simp
      | some y =>
        simp only [Option.bind_eq_bind, Option.some_bind, a5hash_umul128]
        by_cases h2 : 16 < MsgLen - 16
        · rw [dif_pos h2, ih (MsgLen - 16) (by omega) (off + 16) _ _ _ _ h2]
          have e1 : off + 16 + (MsgLen - 16) = off + MsgLen := by omega
          have e2 : a5tail (MsgLen - 16) = a5tail MsgLen := by
            unfold a5tail
            omega
          rw [e1, e2]
        · rw [dif_neg h2, a5hash_stream_loop_spec, dif_neg h2]
          have e1 : off + 16 = off + MsgLen - a5tail MsgLen := by
            unfold a5tail
            omega
          have e2 : MsgLen - 16 = a5tail MsgLen := by
            unfold a5tail
            omega
          simp only [Option.map, e1, e2]
          rfl

/-- C2: for messages longer than 16 bytes a5hash follows the streaming
path exactly as specified: val01 is xored with Seed1 first, the loop mixes
umul128(Seed1 xor load8(Msg), Seed2 xor load8(Msg+8)) and accumulates
val01 and val10 while strictly more than 16 bytes remain (exiting when
exactly 16 remain), and the final windows a and b are the 8-byte loads at
offsets length-16 and length-8 of the original buffer. -/
theorem a5hash_stream_ok (m : List Nat) (seed : Nat) (h : 16 < m.length) :
    a5hash m seed = a5hash_stream_spec m seed := by
  unfold a5hash a5hash_stream_spec
  rcases hinit : a5init m.length seed with ⟨S1, S2⟩
  simp only [hinit]
  rw [if_neg (show ¬ m.length < 17 by omega)]
  rw [a5hash_loop_eq_spec m m.length 0 S1 S2 (A5HASH_VAL01 ^^^ S1)
    (A5HASH_VAL10 ^^^ S2) h]
  cases hs : a5hash_stream_loop_spec m 0 m.length S1 S2 (A5HASH_VAL01 ^^^ S1)
      (A5HASH_VAL10 ^^^ S2) with
  | none => simp
  | some p =>
    simp only [Option.map_some', Option.bind_eq_bind, Option.some_bind]
    have e1 : 0 + m.length - a5tail m.length + a5tail m.length - 16 =
        m.length - 16 := by
      unfold a5tail
      omega
    have e2 : 0 + m.length - a5tail m.length + a5tail m.length - 8 =
        m.length - 8 := by
      unfold a5tail
      omega
    rw [e1, e2]
    rfl

theorem a5hash_stream_ok_witness :
    16 < (List.replicate 17 (0 : Nat)).length ∧
    a5hash (List.replicate 17 (0 : Nat)) 0 =
      a5hash_stream_spec (List.replicate 17 (0 : Nat)) 0 :=
  ⟨by decide, a5hash_stream_ok (List.replicate 17 (0 : Nat)) 0 (by decide)⟩
